import Mathlib

/-!
# Verification of the BFS web crawler (`BFS_Crawler.py`)

Shallow embedding of the crawler module.  HTTP fetching and HTML parsing
are modelled by an abstract world: a function from URLs to fetch results,
where a successful fetch carries the structured content that the Python
code reads off the parsed page (paragraph texts, byline texts, article
preview cards, anchor hrefs).  `urljoin` / `urlparse` from `urllib.parse`
are library functions, modelled as parameters of the environment; every
theorem below holds for all instantiations.  Machine-level details the
claims do not touch (request timeouts, politeness sleeps) are not part of
the state.
-/

/-- Configuration constant `MAX_DEPTH` from the source. -/
def MAX_DEPTH : Nat := 3

/-- Configuration constant `MAX_PAGES` from the source. -/
def MAX_PAGES : Nat := 500

/-- Configuration constant `TIMEOUT_SECS` from the source. -/
def TIMEOUT_SECS : Nat := 8

/-- The alternatives of `ACCEPTED_PATH_REGEX = (blog|article|post|category|archive|news)`. -/
def ACCEPTED_PATH_WORDS : List String :=
  ["blog", "article", "post", "category", "archive", "news"]

/-- Lower-case every character of a string (`str.lower()` for the ASCII
alphabet, matching `re.IGNORECASE` on the ASCII words involved). -/
def strToLower (s : String) : String := String.mk (s.data.map Char.toLower)

/-- Strip leading and trailing whitespace from a character list. -/
def trimChars (cs : List Char) : List Char :=
  ((cs.dropWhile Char.isWhitespace).reverse.dropWhile Char.isWhitespace).reverse

/-- Python `str.strip()`. -/
def strTrim (s : String) : String := String.mk (trimChars s.data)

/-- Cut a character list at every whitespace character (the pieces between
`\s` matches, empties included). -/
def splitWsChars : List Char → List Char → List (List Char)
  | [], cur => [cur.reverse]
  | c :: cs, cur =>
    if c.isWhitespace then cur.reverse :: splitWsChars cs []
    else splitWsChars cs (c :: cur)

/-- `needle` occurs as a contiguous substring of `hay` (a literal
`re.search`). -/
def containsSubAux (needle : List Char) : List Char → Bool
  | [] => needle.isEmpty
  | c :: t => needle.isPrefixOf (c :: t) || containsSubAux needle t

/-- `needle` occurs as a substring of `hay` (both taken literally). -/
def containsSub (hay needle : String) : Bool := containsSubAux needle.data hay.data

/-- `ACCEPTED_PATH_REGEX.search(path)`: the case-insensitive regex
`(blog|article|post|category|archive|news)` matches somewhere in `path`
iff one of the six literal words occurs in the lower-cased path. -/
def accepted_path_regex_search (path : String) : Bool :=
  ACCEPTED_PATH_WORDS.any (fun w => containsSub (strToLower path) w)

/-- `clean_text`: collapse all whitespace runs to single spaces and strip
the ends (`re.sub(r"\s+", " ", text).strip()`, with `""` for falsy input). -/
def clean_text (text : String) : String :=
  String.intercalate " "
    (((splitWsChars text.data []).filter (fun w => w ≠ [])).map (fun w => String.mk w))

/-- Case-insensitive literal prefix removal: `some rest` when `p` is a
prefix of `s` up to case, else `none`. -/
def stripPrefixCI (p s : String) : Option String :=
  if (s.data.take p.data.length).map Char.toLower = p.data.map Char.toLower then
    some (String.mk (s.data.drop p.data.length))
  else none

/-- Consume the regex fragment `\s+`: at least one leading whitespace
character, greedily removed. -/
def dropLeadingWs (s : String) : Option String :=
  match s.data with
  | [] => none
  | c :: _ =>
    if c.isWhitespace then some (String.mk (s.data.dropWhile Char.isWhitespace)) else none

/-- `extract_date_info`: clean the text, then delete a leading
`(Posted|Published|Updated)\s+(on\s+)?` (case-insensitive) and strip. -/
def extract_date_info (text : String) : String :=
  let t := clean_text text
  let kw := match stripPrefixCI "posted" t with
    | some r => some r
    | none => match stripPrefixCI "published" t with
      | some r => some r
      | none => stripPrefixCI "updated" t
  match kw with
  | none => strTrim t
  | some rest =>
    match dropLeadingWs rest with
    | none => strTrim t
    | some rest2 =>
      let rest3 := match stripPrefixCI "on" rest2 with
        | some r => match dropLeadingWs r with
          | some r2 => r2
          | none => rest2
        | none => rest2
      strTrim rest3

/-- An `<a>` link tag found inside an article preview card: its `href`
attribute (when present) and the text of an inner `h3.card-post-title`. -/
structure LinkTag where
  href : Option String
  innerTitle : Option String
deriving DecidableEq, Repr

/-- The data the source reads off a `div.card-post` article preview card. -/
structure Card where
  titleLink : Option LinkTag
  imageLink : Option LinkTag
  cardTitle : Option String
  taxBadges : List String
  catBadges : List String
  cardDate : Option String
  bylineAuthors : List String
  dek : Option String
deriving DecidableEq, Repr

/-- The data the source reads off a parsed HTML document. -/
structure Doc where
  entryContent : Option (List String)
  paragraphs : List String
  bylineTimestamp : Option String
  cardPostDate : Option String
  bylineAuthorLinks : List String
  articleBylineLinks : List String
  cards : List Card
  aHrefs : List String
deriving DecidableEq, Repr

/-- Outcome of `requests.get`: a raised `RequestException`, or a response
with a status code and a body; `none` for the body marks a body on which
`BeautifulSoup` construction raises. -/
inductive FetchResult where
  | err : FetchResult
  | ok (status : Nat) (odoc : Option Doc) : FetchResult
deriving DecidableEq, Repr

/-- The three components of a `urllib.parse.urlparse` result that the
source reads. -/
structure ParsedUrl where
  scheme : String
  netloc : String
  path : String
deriving DecidableEq, Repr

/-- The ambient environment: the network (a deterministic map from URL to
fetch outcome) together with the `urllib.parse` library functions. -/
structure Env where
  world : String → FetchResult
  urljoin : String → String → String
  urlparse : String → ParsedUrl

/-- A Python dictionary value appearing in the details dict: a string or a
list of strings. -/
inductive DVal where
  | str (s : String) : DVal
  | strs (l : List String) : DVal
deriving DecidableEq, Repr

/-- Python dict assignment `d[k] = v` on an insertion-ordered association
list: replace in place when the key exists, append otherwise. -/
def dictSet (l : List (String × DVal)) (k : String) (v : DVal) : List (String × DVal) :=
  match l with
  | [] => [(k, v)]
  | (k2, v2) :: rest => if k2 = k then (k, v) :: rest else (k2, v2) :: dictSet rest k v

/-- Python dict lookup `d.get(k)`. -/
def dictGet (l : List (String × DVal)) (k : String) : Option DVal :=
  (l.find? (fun p => p.1 = k)).map Prod.snd

/-- The initial value of `details` in `get_article_details`. -/
def detailsDefault : List (String × DVal) :=
  [("Full Article", DVal.str ""), ("Date Posted", DVal.str ""), ("Author(s)", DVal.strs [])]

/-- `get_article_details`: fetch the article page and extract full text,
date and authors; on a request error, a non-200 status, or a parse
failure, the defaults are returned (the `except` branches run before any
key is assigned). -/
def get_article_details (world : String → FetchResult) (article_url : String) :
    List (String × DVal) :=
  let details := detailsDefault
  match world article_url with
  | FetchResult.err => details
  | FetchResult.ok status odoc =>
    if status ≠ 200 then details
    else
      match odoc with
      | none => details
      | some soup =>
        let full_text := match soup.entryContent with
          | some paras => String.intercalate " " (paras.map (fun p => clean_text p))
          | none => String.intercalate " " (soup.paragraphs.map (fun p => clean_text p))
        let d1 := dictSet details "Full Article" (DVal.str full_text)
        let d2 := match soup.bylineTimestamp with
          | some t => dictSet d1 "Date Posted" (DVal.str (extract_date_info (clean_text t)))
          | none => match soup.cardPostDate with
            | some t => dictSet d1 "Date Posted" (DVal.str (extract_date_info (clean_text t)))
            | none => d1
        let author_tags := if soup.bylineAuthorLinks.isEmpty then soup.articleBylineLinks
          else soup.bylineAuthorLinks
        let authors := (author_tags.map clean_text).filter (fun n => n ≠ "")
        dictSet d2 "Author(s)" (DVal.strs authors)

/-- One extracted article record (the dictionary built at the end of the
card loop in `extract_articles_from_page`). -/
structure Article where
  sectionStr : String
  title : String
  link : String
  authors : List String
  datePosted : String
  dateUpdated : String
  updates : String
  fullArticle : String
deriving DecidableEq, Repr

/-- The body of the card loop in `extract_articles_from_page`: `none`
corresponds to the `continue` statements. -/
def cardToArticle (world : String → FetchResult) (card : Card) : Option Article :=
  let link_tag := match card.titleLink with
    | some t => some t
    | none => card.imageLink
  match link_tag with
  | none => none
  | some lt =>
    let article_url := strTrim (lt.href.getD "")
    if article_url = "" then none
    else
      let title_tag := match lt.innerTitle with
        | some t => some t
        | none => card.cardTitle
      let article_title := match title_tag with
        | some t => clean_text t
        | none => ""
      let cat_badge_tags := if card.taxBadges.isEmpty then card.catBadges else card.taxBadges
      let section_str := String.intercalate ", " (cat_badge_tags.map clean_text)
      let date_posted0 := match card.cardDate with
        | some dt => extract_date_info (clean_text dt)
        | none => ""
      let authors0 := (card.bylineAuthors.map clean_text).filter (fun n => n ≠ "")
      let updates := match card.dek with
        | some u => clean_text u
        | none => ""
      let details := get_article_details world article_url
      let detailsDate := match dictGet details "Date Posted" with
        | some (DVal.str s) => s
        | _ => ""
      let detailsAuthors := match dictGet details "Author(s)" with
        | some (DVal.strs l) => l
        | _ => []
      let full_text := match dictGet details "Full Article" with
        | some (DVal.str s) => s
        | _ => ""
      let date_posted := if date_posted0 = "" ∧ detailsDate ≠ "" then detailsDate else date_posted0
      let authors := if authors0.isEmpty ∧ ¬ detailsAuthors.isEmpty then detailsAuthors else authors0
      some { sectionStr := section_str, title := article_title, link := article_url,
             authors := authors, datePosted := date_posted, dateUpdated := "",
             updates := updates, fullArticle := full_text }

/-- `extract_articles_from_page`: on a request error, a non-200 status, or
a parse failure the `except` / early-return branches yield `[]`; otherwise
each `div.card-post` card is turned into at most one article record. -/
def extract_articles_from_page (world : String → FetchResult) (page_url : String) :
    List Article :=
  match world page_url with
  | FetchResult.err => []
  | FetchResult.ok status odoc =>
    if status ≠ 200 then []
    else
      match odoc with
      | none => []
      | some soup => soup.cards.filterMap (cardToArticle world)

/-- The crawler's loop state.  `fetchedLog`, `dequeueLog` and
`articleStream` are ghost histories: the URLs printed as "Crawling URL"
(i.e. actually processed), every dequeued frontier entry in order, and
the concatenation of all per-page extraction results in processing order.
`crashed` records an exception escaping the link-discovery phase (only
`RequestException` is caught there). -/
structure CrawlState where
  visited : List String
  scrapedArticleUrls : List String
  queue : List (String × Nat)
  allArticles : List Article
  pagesVisited : Nat
  fetchedLog : List String
  dequeueLog : List (String × Nat)
  articleStream : List Article
  crashed : Bool
deriving DecidableEq, Repr

/-- The state just before the `while` loop in `crawl_website`. -/
def initState (start_url : String) : CrawlState :=
  { visited := [], scrapedArticleUrls := [], queue := [(start_url, 0)],
    allArticles := [], pagesVisited := 0, fetchedLog := [], dequeueLog := [],
    articleStream := [], crashed := false }

/-- The content-dedup loop over `articles_on_page` (lines 236-240): an
article is appended only when its `"Link"` is not yet in
`scraped_article_urls`, which then records it. -/
def dedupArticles (scraped : List String) (acc : List Article) :
    List Article → List String × List Article
  | [] => (scraped, acc)
  | a :: rest =>
    if a.link ∈ scraped then dedupArticles scraped acc rest
    else dedupArticles (a.link :: scraped) (acc ++ [a]) rest

/-- The link-discovery loop body (lines 249-261): for each `<a href>` on
the page, resolve it against the current URL and keep it iff it is
same-host, http(s), unvisited, and its path matches the regex.  Kept
links are enqueued at depth `depth + 1` in document order. -/
def linksFrom (env : Env) (domain : String) (visited : List String)
    (current_url : String) (depth : Nat) (soup : Doc) : List (String × Nat) :=
  soup.aHrefs.filterMap (fun hrefRaw =>
    let href := strTrim hrefRaw
    if href = "" then none
    else
      let new_url := env.urljoin current_url href
      let parsed_new := env.urlparse new_url
      if parsed_new.netloc = domain ∧
          (parsed_new.scheme = "http" ∨ parsed_new.scheme = "https") ∧
          ¬ new_url ∈ visited ∧
          accepted_path_regex_search parsed_new.path = true then
        some (new_url, depth + 1)
      else none)

/-- The link-discovery phase (lines 244-264), entered after the page was
processed: guarded by `depth < max_depth and pages_visited < max_pages`,
it re-fetches `current_url`; a `RequestException` is caught (`continue`),
a non-200 status skips discovery, and a parse failure would escape the
`except requests.exceptions.RequestException` clause and abort the run. -/
def crawlLinkPhase (env : Env) (max_depth max_pages : Nat) (domain : String)
    (current_url : String) (depth : Nat) (st : CrawlState) : CrawlState :=
  if depth < max_depth ∧ st.pagesVisited < max_pages then
    match env.world current_url with
    | FetchResult.err => st
    | FetchResult.ok status odoc =>
      if status = 200 then
        match odoc with
        | none => { st with crashed := true }
        | some soup =>
          { st with queue := st.queue ++ linksFrom env domain st.visited current_url depth soup }
      else st
  else st

/-- One iteration of the `while queue:` loop of `crawl_website`
(lines 222-266): pop the front entry; discard it if already visited; mark
it visited; discard it if beyond the depth or page budget; otherwise
extract and dedup its articles, count the page, and run link discovery. -/
def crawlStep (env : Env) (max_depth max_pages : Nat) (domain : String)
    (st : CrawlState) : CrawlState :=
  if st.crashed then st else
  match st.queue with
  | [] => st
  | (current_url, depth) :: rest =>
    if current_url ∈ st.visited then
      { st with queue := rest, dequeueLog := st.dequeueLog ++ [(current_url, depth)] }
    else if max_depth < depth ∨ max_pages ≤ st.pagesVisited then
      { st with queue := rest, dequeueLog := st.dequeueLog ++ [(current_url, depth)],
                visited := current_url :: st.visited }
    else
      crawlLinkPhase env max_depth max_pages domain current_url depth
        { st with queue := rest,
                  dequeueLog := st.dequeueLog ++ [(current_url, depth)],
                  visited := current_url :: st.visited,
                  scrapedArticleUrls :=
                    (dedupArticles st.scrapedArticleUrls st.allArticles
                      (extract_articles_from_page env.world current_url)).1,
                  allArticles :=
                    (dedupArticles st.scrapedArticleUrls st.allArticles
                      (extract_articles_from_page env.world current_url)).2,
                  pagesVisited := st.pagesVisited + 1,
                  fetchedLog := st.fetchedLog ++ [current_url],
                  articleStream :=
                    st.articleStream ++ extract_articles_from_page env.world current_url }

/-- Fuel-indexed iteration of the `while queue:` loop. -/
def crawlRun (env : Env) (max_depth max_pages : Nat) (domain : String) :
    Nat → CrawlState → CrawlState
  | 0, st => st
  | Nat.succ n, st =>
    match st.queue with
    | [] => st
    | _ :: _ => crawlRun env max_depth max_pages domain n (crawlStep env max_depth max_pages domain st)

/-- `crawl_website`: BFS from `start_url` over the same-`netloc` link
graph, returning the deduplicated article records. -/
def crawl_website (env : Env) (max_depth max_pages fuel : Nat) (start_url : String) :
    List Article :=
  (crawlRun env max_depth max_pages (env.urlparse start_url).netloc fuel
    (initState start_url)).allArticles

/-- The BFS depth invariant: the depths of all dequeued entries followed
by the depths still in the frontier form a non-decreasing sequence, and
any two depths in the frontier differ by at most one. -/
def depthInv (st : CrawlState) : Prop :=
  (st.dequeueLog.map Prod.snd ++ st.queue.map Prod.snd).Pairwise (· ≤ ·) ∧
    ∀ x ∈ st.queue.map Prod.snd, ∀ y ∈ st.queue.map Prod.snd, x ≤ y + 1

/-- A parsed document with no content at all. -/
def docEmpty : Doc :=
  { entryContent := none, paragraphs := [], bylineTimestamp := none, cardPostDate := none,
    bylineAuthorLinks := [], articleBylineLinks := [], cards := [], aHrefs := [] }

/-- A network on which every request raises a `RequestException`. -/
def envErr : Env :=
  { world := fun _ => FetchResult.err,
    urljoin := fun _ href => href,
    urlparse := fun _ => { scheme := "https", netloc := "h", path := "/" } }

/-- A network answering every request with a 404 status. -/
def env404 : Env :=
  { world := fun _ => FetchResult.ok 404 (some docEmpty),
    urljoin := fun _ href => href,
    urlparse := fun _ => { scheme := "https", netloc := "h", path := "/" } }

/-- A preview card linking one article page. -/
def cardW : Card :=
  { titleLink := some { href := some "https://h/blog/a", innerTitle := some "T" },
    imageLink := none, cardTitle := none, taxBadges := [], catBadges := [],
    cardDate := none, bylineAuthors := [], dek := none }

/-- A seed page carrying one preview card and one outbound link. -/
def docW : Doc :=
  { entryContent := none, paragraphs := [], bylineTimestamp := none, cardPostDate := none,
    bylineAuthorLinks := [], articleBylineLinks := [], cards := [cardW],
    aHrefs := ["https://h/blog/x"] }

/-- A network serving `docW` at the seed URL and failing elsewhere. -/
def envW : Env :=
  { world := fun u => if u = "seed" then FetchResult.ok 200 (some docW) else FetchResult.err,
    urljoin := fun _ href => href,
    urlparse := fun u =>
      if u = "seed" then { scheme := "https", netloc := "h", path := "/" }
      else { scheme := "https", netloc := "h", path := "/blog/x" } }

/-- The record extracted from `cardW` when the article-page fetch fails. -/
def articleW : Article :=
  { sectionStr := "", title := "T", link := "https://h/blog/a", authors := [],
    datePosted := "", dateUpdated := "", updates := "", fullArticle := "" }

/-- A state whose frontier holds a single entry at depth 5. -/
def st5 : CrawlState := { initState "u" with queue := [("u", 5)] }


/-! ## Basic lemmas about the building blocks -/

theorem dedupArticles_mem (l : List Article) :
    ∀ scraped acc b, b ∈ (dedupArticles scraped acc l).2 → b ∈ acc ∨ b ∈ l := by
  induction l with
  | nil => intro scraped acc b hb; exact Or.inl hb
  | cons a rest ih =>
    intro scraped acc b hb
    unfold dedupArticles at hb
    by_cases h : a.link ∈ scraped
    · rw [if_pos h] at hb
      rcases ih scraped acc b hb with h1 | h1
      · exact Or.inl h1
      · exact Or.inr (List.mem_cons_of_mem _ h1)
    · rw [if_neg h] at hb
      rcases ih (a.link :: scraped) (acc ++ [a]) b hb with h1 | h1
      · rcases List.mem_append.1 h1 with h2 | h2
        · exact Or.inl h2
        · simp only [List.mem_singleton] at h2
          exact Or.inr (h2 ▸ List.mem_cons_self a rest)
      · exact Or.inr (List.mem_cons_of_mem _ h1)

theorem dedupArticles_nodup (l : List Article) :
    ∀ scraped acc, (acc.map Article.link).Nodup →
      (∀ a ∈ acc, a.link ∈ scraped) →
      (((dedupArticles scraped acc l).2.map Article.link).Nodup ∧
        ∀ a ∈ (dedupArticles scraped acc l).2, a.link ∈ (dedupArticles scraped acc l).1) := by
  induction l with
  | nil => intro scraped acc h1 h2; exact ⟨h1, h2⟩
  | cons a rest ih =>
    intro scraped acc h1 h2
    unfold dedupArticles
    by_cases h : a.link ∈ scraped
    · rw [if_pos h]
      exact ih scraped acc h1 h2
    · rw [if_neg h]
      refine ih (a.link :: scraped) (acc ++ [a]) ?_ ?_
      · rw [List.map_append, List.map_singleton]
        rw [List.nodup_append]
        refine ⟨h1, List.nodup_singleton _, ?_⟩
        intro x hx hxy
        simp only [List.mem_singleton] at hxy
        subst hxy
        rcases List.mem_map.1 hx with ⟨b, hb, hbl⟩
        exact h (hbl ▸ h2 b hb)
      · intro b hb
        rcases List.mem_append.1 hb with h3 | h3
        · exact List.mem_cons_of_mem _ (h2 b h3)
        · simp only [List.mem_singleton] at h3
          subst h3
          exact List.mem_cons_self _ _

theorem dedupArticles_cons (scraped : List String) (acc : List Article) (a : Article)
    (l : List Article) :
    dedupArticles scraped acc (a :: l) =
      if a.link ∈ scraped then dedupArticles scraped acc l
      else dedupArticles (a.link :: scraped) (acc ++ [a]) l := rfl

theorem dedupArticles_append (l1 l2 : List Article) :
    ∀ scraped acc, dedupArticles scraped acc (l1 ++ l2) =
      dedupArticles (dedupArticles scraped acc l1).1 (dedupArticles scraped acc l1).2 l2 := by
  induction l1 with
  | nil => intro scraped acc; rfl
  | cons a rest ih =>
    intro scraped acc
    rw [List.cons_append]
    simp only [dedupArticles_cons]
    by_cases h : a.link ∈ scraped
    · simp only [if_pos h]; exact ih scraped acc
    · simp only [if_neg h]; exact ih (a.link :: scraped) (acc ++ [a])

theorem mem_linksFrom {env : Env} {domain : String} {visited : List String}
    {current_url : String} {depth : Nat} {soup : Doc} {e : String × Nat}
    (he : e ∈ linksFrom env domain visited current_url depth soup) :
    (env.urlparse e.1).netloc = domain ∧
    ((env.urlparse e.1).scheme = "http" ∨ (env.urlparse e.1).scheme = "https") ∧
    ¬ e.1 ∈ visited ∧
    accepted_path_regex_search (env.urlparse e.1).path = true ∧
    e.2 = depth + 1 := by
  unfold linksFrom at he
  rcases List.mem_filterMap.1 he with ⟨a, _, hfa⟩
  dsimp only at hfa
  by_cases h0 : strTrim a = ""
  · rw [if_pos h0] at hfa; exact absurd hfa (by simp)
  · rw [if_neg h0] at hfa
    split at hfa
    · next hcond =>
      rcases Option.some.inj hfa with rfl
      exact ⟨hcond.1, hcond.2.1, hcond.2.2.1, hcond.2.2.2, rfl⟩
    · exact absurd hfa (by simp)

/-! ## Shape lemmas for the link-discovery phase -/

theorem crawlLinkPhase_visited (env : Env) (mD mP : Nat) (dom u : String) (d : Nat)
    (st : CrawlState) : (crawlLinkPhase env mD mP dom u d st).visited = st.visited := by
  unfold crawlLinkPhase
  split
  · split
    · rfl
    · split
      · split
        · rfl
        · rfl
      · rfl
  · rfl

theorem crawlLinkPhase_scraped (env : Env) (mD mP : Nat) (dom u : String) (d : Nat)
    (st : CrawlState) :
    (crawlLinkPhase env mD mP dom u d st).scrapedArticleUrls = st.scrapedArticleUrls := by
  unfold crawlLinkPhase
  split
  · split
    · rfl
    · split
      · split
        · rfl
        · rfl
      · rfl
  · rfl

theorem crawlLinkPhase_allArticles (env : Env) (mD mP : Nat) (dom u : String) (d : Nat)
    (st : CrawlState) : (crawlLinkPhase env mD mP dom u d st).allArticles = st.allArticles := by
  unfold crawlLinkPhase
  split
  · split
    · rfl
    · split
      · split
        · rfl
        · rfl
      · rfl
  · rfl

theorem crawlLinkPhase_pagesVisited (env : Env) (mD mP : Nat) (dom u : String) (d : Nat)
    (st : CrawlState) : (crawlLinkPhase env mD mP dom u d st).pagesVisited = st.pagesVisited := by
  unfold crawlLinkPhase
  split
  · split
    · rfl
    · split
      · split
        · rfl
        · rfl
      · rfl
  · rfl

theorem crawlLinkPhase_fetchedLog (env : Env) (mD mP : Nat) (dom u : String) (d : Nat)
    (st : CrawlState) : (crawlLinkPhase env mD mP dom u d st).fetchedLog = st.fetchedLog := by
  unfold crawlLinkPhase
  split
  · split
    · rfl
    · split
      · split
        · rfl
        · rfl
      · rfl
  · rfl

theorem crawlLinkPhase_dequeueLog (env : Env) (mD mP : Nat) (dom u : String) (d : Nat)
    (st : CrawlState) : (crawlLinkPhase env mD mP dom u d st).dequeueLog = st.dequeueLog := by
  unfold crawlLinkPhase
  split
  · split
    · rfl
    · split
      · split
        · rfl
        · rfl
      · rfl
  · rfl

theorem crawlLinkPhase_articleStream (env : Env) (mD mP : Nat) (dom u : String) (d : Nat)
    (st : CrawlState) : (crawlLinkPhase env mD mP dom u d st).articleStream = st.articleStream := by
  unfold crawlLinkPhase
  split
  · split
    · rfl
    · split
      · split
        · rfl
        · rfl
      · rfl
  · rfl

theorem crawlLinkPhase_queue (env : Env) (mD mP : Nat) (dom u : String) (d : Nat)
    (st : CrawlState) :
    (crawlLinkPhase env mD mP dom u d st).queue = st.queue ∨
    ∃ soup, (crawlLinkPhase env mD mP dom u d st).queue =
      st.queue ++ linksFrom env dom st.visited u d soup := by
  unfold crawlLinkPhase
  split
  · split
    · exact Or.inl rfl
    · split
      · split
        · exact Or.inl rfl
        · exact Or.inr ⟨_, rfl⟩
      · exact Or.inl rfl
  · exact Or.inl rfl

/-! ## Generic invariant preservation over a run -/

theorem crawlRun_inv {env : Env} {mD mP : Nat} {dom : String} (P : CrawlState → Prop)
    (hstep : ∀ st, P st → P (crawlStep env mD mP dom st)) :
    ∀ fuel st, P st → P (crawlRun env mD mP dom fuel st) := by
  intro fuel
  induction fuel with
  | zero => intro st h; exact h
  | succ n ih =>
    intro st h
    unfold crawlRun
    match hq : st.queue with
    | [] => exact h
    | e :: rest => exact ih (crawlStep env mD mP dom st) (hstep st h)

/-! ## Step preservation of the run invariants -/

theorem crawlStep_inv_fetched (env : Env) (mD mP : Nat) (dom : String) (st : CrawlState)
    (h1 : st.fetchedLog.Nodup) (h2 : ∀ u ∈ st.fetchedLog, u ∈ st.visited) :
    (crawlStep env mD mP dom st).fetchedLog.Nodup ∧
      ∀ u ∈ (crawlStep env mD mP dom st).fetchedLog, u ∈ (crawlStep env mD mP dom st).visited := by
  unfold crawlStep
  split
  · exact ⟨h1, h2⟩
  · split
    · exact ⟨h1, h2⟩
    · next current_url depth rest =>
      split
      · exact ⟨h1, h2⟩
      · split
        · exact ⟨h1, fun u hu => List.mem_cons_of_mem _ (h2 u hu)⟩
        · next hnv hbudget =>
          rw [crawlLinkPhase_fetchedLog]
          constructor
          · rw [List.nodup_append]
            refine ⟨h1, List.nodup_singleton _, ?_⟩
            intro x hx hxy
            simp only [List.mem_singleton] at hxy
            subst hxy
            exact hnv (h2 _ hx)
          · intro u hu
            rw [crawlLinkPhase_visited]
            rcases List.mem_append.1 hu with h3 | h3
            · exact List.mem_cons_of_mem _ (h2 u h3)
            · simp only [List.mem_singleton] at h3
              subst h3
              exact List.mem_cons_self _ _

theorem crawlStep_inv_count (env : Env) (mD mP : Nat) (dom : String) (st : CrawlState)
    (h1 : st.pagesVisited ≤ mP) (h2 : st.fetchedLog.length = st.pagesVisited) :
    (crawlStep env mD mP dom st).pagesVisited ≤ mP ∧
      (crawlStep env mD mP dom st).fetchedLog.length = (crawlStep env mD mP dom st).pagesVisited := by
  unfold crawlStep
  split
  · exact ⟨h1, h2⟩
  · split
    · exact ⟨h1, h2⟩
    · next x current_url depth rest heq =>
      split
      · exact ⟨h1, h2⟩
      · split
        · exact ⟨h1, h2⟩
        · next hnv hbudget =>
          rw [crawlLinkPhase_pagesVisited, crawlLinkPhase_fetchedLog]
          push_neg at hbudget
          refine ⟨hbudget.2, ?_⟩
          show (st.fetchedLog ++ [current_url]).length = st.pagesVisited + 1
          rw [List.length_append, h2]
          rfl

theorem crawlStep_inv_articles (env : Env) (mD mP : Nat) (dom : String) (st : CrawlState)
    (h1 : st.scrapedArticleUrls = (dedupArticles [] [] st.articleStream).1)
    (h2 : st.allArticles = (dedupArticles [] [] st.articleStream).2) :
    (crawlStep env mD mP dom st).scrapedArticleUrls =
      (dedupArticles [] [] (crawlStep env mD mP dom st).articleStream).1 ∧
    (crawlStep env mD mP dom st).allArticles =
      (dedupArticles [] [] (crawlStep env mD mP dom st).articleStream).2 := by
  unfold crawlStep
  split
  · exact ⟨h1, h2⟩
  · split
    · exact ⟨h1, h2⟩
    · next x current_url depth rest heq =>
      split
      · exact ⟨h1, h2⟩
      · split
        · exact ⟨h1, h2⟩
        · next hnv hbudget =>
          rw [crawlLinkPhase_scraped, crawlLinkPhase_allArticles, crawlLinkPhase_articleStream]
          show (dedupArticles st.scrapedArticleUrls st.allArticles
              (extract_articles_from_page env.world current_url)).1 =
              (dedupArticles [] []
                (st.articleStream ++ extract_articles_from_page env.world current_url)).1 ∧
              (dedupArticles st.scrapedArticleUrls st.allArticles
                (extract_articles_from_page env.world current_url)).2 =
              (dedupArticles [] []
                (st.articleStream ++ extract_articles_from_page env.world current_url)).2
          rw [dedupArticles_append, ← h1, ← h2]
          exact ⟨rfl, rfl⟩

theorem crawlStep_inv_filter (env : Env) (mD mP : Nat) (dom start : String) (st : CrawlState)
    (h : ∀ e ∈ st.queue, e.1 = start ∨
      accepted_path_regex_search (env.urlparse e.1).path = true) :
    ∀ e ∈ (crawlStep env mD mP dom st).queue, e.1 = start ∨
      accepted_path_regex_search (env.urlparse e.1).path = true := by
  unfold crawlStep
  split
  · exact h
  · split
    · exact h
    · next x current_url depth rest heq =>
      have hrest : ∀ e ∈ rest, e.1 = start ∨
          accepted_path_regex_search (env.urlparse e.1).path = true :=
        fun e he => h e (heq ▸ List.mem_cons_of_mem _ he)
      split
      · exact hrest
      · split
        · exact hrest
        · rcases crawlLinkPhase_queue env mD mP dom current_url depth _ with hq | ⟨soup, hq⟩
          · rw [hq]
            exact hrest
          · rw [hq]
            intro e he
            rcases List.mem_append.1 he with h3 | h3
            · exact hrest e h3
            · exact Or.inr (mem_linksFrom h3).2.2.2.1

/-! ## The BFS depth invariant -/

theorem pairwise_le_of_const (S : List Nat) (c : Nat) (hS : ∀ x ∈ S, x = c) :
    S.Pairwise (· ≤ ·) := by
  induction S with
  | nil => exact List.Pairwise.nil
  | cons a t ih =>
    refine List.Pairwise.cons ?_ (ih fun x hx => hS x (List.mem_cons_of_mem _ hx))
    intro b hb
    rw [hS a (List.mem_cons_self _ _), hS b (List.mem_cons_of_mem _ hb)]

theorem pairwise_step (L R S : List Nat) (d : Nat)
    (hpw : (L ++ d :: R).Pairwise (· ≤ ·))
    (hgap : ∀ x ∈ d :: R, ∀ y ∈ d :: R, x ≤ y + 1)
    (hS : ∀ x ∈ S, x = d + 1) :
    ((L ++ [d]) ++ (R ++ S)).Pairwise (· ≤ ·) ∧
      ∀ x ∈ R ++ S, ∀ y ∈ R ++ S, x ≤ y + 1 := by
  rw [List.pairwise_append] at hpw
  obtain ⟨hL, hdR, hLdR⟩ := hpw
  rw [List.pairwise_cons] at hdR
  obtain ⟨hdle, hR⟩ := hdR
  constructor
  · rw [List.pairwise_append]
    refine ⟨?_, ?_, ?_⟩
    · rw [List.pairwise_append]
      refine ⟨hL, List.pairwise_singleton _ _, ?_⟩
      intro a ha b hb
      simp only [List.mem_singleton] at hb
      rw [hb]
      exact hLdR a ha d (List.mem_cons_self _ _)
    · rw [List.pairwise_append]
      refine ⟨hR, pairwise_le_of_const S (d + 1) hS, ?_⟩
      intro a ha b hb
      rw [hS b hb]
      exact hgap a (List.mem_cons_of_mem _ ha) d (List.mem_cons_self _ _)
    · intro a ha b hb
      rcases List.mem_append.1 ha with h1 | h1
      · rcases List.mem_append.1 hb with h2 | h2
        · exact hLdR a h1 b (List.mem_cons_of_mem _ h2)
        · rw [hS b h2]
          exact Nat.le_succ_of_le (hLdR a h1 d (List.mem_cons_self _ _))
      · simp only [List.mem_singleton] at h1
        subst h1
        rcases List.mem_append.1 hb with h2 | h2
        · exact hdle b h2
        · rw [hS b h2]
          exact Nat.le_succ _
  · intro x hx y hy
    rcases List.mem_append.1 hx with h1 | h1
    · rcases List.mem_append.1 hy with h2 | h2
      · exact hgap x (List.mem_cons_of_mem _ h1) y (List.mem_cons_of_mem _ h2)
      · rw [hS y h2]
        exact Nat.le_succ_of_le (hgap x (List.mem_cons_of_mem _ h1) d (List.mem_cons_self _ _))
    · rw [hS x h1]
      rcases List.mem_append.1 hy with h2 | h2
      · exact Nat.succ_le_succ (hdle y h2)
      · rw [hS y h2]
        exact Nat.le_succ _

theorem crawlStep_inv_depth (env : Env) (mD mP : Nat) (dom : String) (st : CrawlState)
    (h : depthInv st) : depthInv (crawlStep env mD mP dom st) := by
  obtain ⟨hpw, hgap⟩ := h
  unfold depthInv
  unfold crawlStep
  split
  · exact ⟨hpw, hgap⟩
  · split
    · exact ⟨hpw, hgap⟩
    · next x current_url depth rest heq =>
      rw [heq] at hpw hgap
      simp only [List.map_cons] at hpw hgap
      have base := pairwise_step (st.dequeueLog.map Prod.snd) (rest.map Prod.snd) [] depth
        hpw hgap (by intro z hz; cases hz)
      rw [List.append_nil] at base
      split
      · show ((st.dequeueLog ++ [(current_url, depth)]).map Prod.snd ++ rest.map Prod.snd).Pairwise _ ∧ _
        rw [List.map_append, List.map_singleton]
        exact base
      · split
        · show ((st.dequeueLog ++ [(current_url, depth)]).map Prod.snd ++ rest.map Prod.snd).Pairwise _ ∧ _
          rw [List.map_append, List.map_singleton]
          exact base
        · rcases crawlLinkPhase_queue env mD mP dom current_url depth _ with hq | ⟨soup, hq⟩
          · rw [crawlLinkPhase_dequeueLog, hq]
            show ((st.dequeueLog ++ [(current_url, depth)]).map Prod.snd ++ rest.map Prod.snd).Pairwise _ ∧ _
            rw [List.map_append, List.map_singleton]
            exact base
          · rw [crawlLinkPhase_dequeueLog, hq]
            have hS : ∀ z ∈ (linksFrom env dom (current_url :: st.visited) current_url depth soup).map
                Prod.snd, z = depth + 1 := by
              intro z hz
              rcases List.mem_map.1 hz with ⟨e, he, hez⟩
              rw [← hez]
              exact (mem_linksFrom he).2.2.2.2
            have base2 := pairwise_step (st.dequeueLog.map Prod.snd) (rest.map Prod.snd)
              ((linksFrom env dom (current_url :: st.visited) current_url depth soup).map Prod.snd)
              depth hpw hgap hS
            show ((st.dequeueLog ++ [(current_url, depth)]).map Prod.snd ++
                (rest ++ linksFrom env dom (current_url :: st.visited) current_url depth soup).map
                  Prod.snd).Pairwise _ ∧ _
            rw [List.map_append, List.map_singleton, List.map_append]
            constructor
            · exact base2.1
            · exact base2.2

/-! ## Special-case behaviour of the step function -/

theorem dedupArticles_nil (scraped : List String) (acc : List Article) :
    dedupArticles scraped acc [] = (scraped, acc) := rfl

theorem extract_articles_err {world : String → FetchResult} {u : String}
    (h : world u = FetchResult.err) : extract_articles_from_page world u = [] := by
  unfold extract_articles_from_page
  rw [h]

theorem extract_articles_non200 {world : String → FetchResult} {u : String} {s : Nat}
    {odoc : Option Doc} (h : world u = FetchResult.ok s odoc) (hs : s ≠ 200) :
    extract_articles_from_page world u = [] := by
  simp only [extract_articles_from_page, h]
  rw [if_pos hs]

theorem crawlLinkPhase_depth0 (env : Env) (mP : Nat) (dom u : String) (d : Nat)
    (st : CrawlState) : crawlLinkPhase env 0 mP dom u d st = st := by
  unfold crawlLinkPhase
  rw [if_neg]
  intro hc
  exact absurd hc.1 (Nat.not_lt_zero d)

theorem crawlStep_inv_depth0 (env : Env) (mP : Nat) (dom start : String) (st : CrawlState)
    (h1 : ∀ a ∈ st.allArticles, a ∈ extract_articles_from_page env.world start)
    (h2 : st.queue = [(start, 0)] ∨ st.queue = []) :
    (∀ a ∈ (crawlStep env 0 mP dom st).allArticles,
        a ∈ extract_articles_from_page env.world start) ∧
      ((crawlStep env 0 mP dom st).queue = [(start, 0)] ∨
        (crawlStep env 0 mP dom st).queue = []) := by
  rcases h2 with h2 | h2
  · simp only [crawlStep, h2]
    split
    · exact ⟨h1, Or.inl h2⟩
    · split
      · exact ⟨h1, Or.inr rfl⟩
      · split
        · exact ⟨h1, Or.inr rfl⟩
        · rw [crawlLinkPhase_depth0]
          constructor
          · intro a ha
            rcases dedupArticles_mem _ _ _ a ha with h3 | h3
            · exact h1 a h3
            · exact h3
          · exact Or.inr rfl
  · simp only [crawlStep, h2]
    split
    · exact ⟨h1, Or.inr h2⟩
    · exact ⟨h1, Or.inr h2⟩

/-- Claim C5: a dequeued, not-yet-visited frontier entry whose depth
exceeds `max_depth` or that arrives once the processed-page count has
reached `max_pages` is marked visited and dropped: the resulting state
differs from the previous one only in the popped queue, the dequeue log
and the enlarged visited set — no fetch, no output, no page-count
increment, and the entry is not re-queued. -/
theorem crawlStep_discard_eq (env : Env) (mD mP : Nat) (dom : String) (st : CrawlState)
    (u : String) (d : Nat) (rest : List (String × Nat))
    (hq : st.queue = (u, d) :: rest) (hnv : ¬ u ∈ st.visited)
    (hcond : mD < d ∨ mP ≤ st.pagesVisited) (hcr : st.crashed = false) :
    crawlStep env mD mP dom st =
      { st with queue := rest, visited := u :: st.visited,
                dequeueLog := st.dequeueLog ++ [(u, d)] } := by
  simp only [crawlStep, hq, hcr]
  rw [if_neg (by decide : ¬ (false = true))]
  rw [if_neg hnv, if_pos hcond]

/-- Claim C4 (amended): when fetching a dequeued fresh in-budget URL
fails — with a request (network/transport) error, or with a non-success
HTTP status — the URL contributes zero output records, none of its
outbound links are enqueued (the link-discovery fetch of the same URL
fails likewise), and it is never retried (it stays visited) — but the
processed-page count is still incremented, so the failed URL does count
toward the `max_pages` budget. -/
theorem crawlStep_err_eq (env : Env) (mD mP : Nat) (dom : String) (st : CrawlState)
    (u : String) (d : Nat) (rest : List (String × Nat))
    (hq : st.queue = (u, d) :: rest) (hnv : ¬ u ∈ st.visited)
    (hd : ¬ mD < d) (hp : ¬ mP ≤ st.pagesVisited) (hcr : st.crashed = false)
    (hfail : env.world u = FetchResult.err ∨
      ∃ s odoc, env.world u = FetchResult.ok s odoc ∧ s ≠ 200) :
    crawlStep env mD mP dom st =
      { st with queue := rest, visited := u :: st.visited,
                pagesVisited := st.pagesVisited + 1,
                fetchedLog := st.fetchedLog ++ [u],
                dequeueLog := st.dequeueLog ++ [(u, d)] } := by
  have hext : extract_articles_from_page env.world u = [] := by
    rcases hfail with herr | ⟨s, odoc, hok, hs⟩
    · exact extract_articles_err herr
    · exact extract_articles_non200 hok hs
  simp only [crawlStep, hq, hcr]
  rw [if_neg (by decide : ¬ (false = true))]
  rw [if_neg hnv, if_neg (by rw [not_or]; exact ⟨hd, hp⟩)]
  rw [hext, dedupArticles_nil]
  unfold crawlLinkPhase
  split
  · rcases hfail with herr | ⟨s, odoc, hok, hs⟩
    · rw [herr]
      simp [List.append_nil]
    · simp only [hok]
      rw [if_neg hs]
      simp [List.append_nil]
  · simp [List.append_nil]

/-- Claim C8: any frontier entry present after a loop iteration either
was already in the frontier or is a freshly discovered link whose parsed
host equals the crawl domain (the seed's `netloc` in `crawl_website`),
whose scheme is http or https, which was not in the visited set at
enqueue time (the set already containing the page being processed), whose
path matches the path filter, and whose depth is the current depth plus
one.  A link to a different host is therefore never enqueued. -/
theorem crawlStep_new_entries (env : Env) (mD mP : Nat) (start : String) (st : CrawlState)
    (u : String) (d : Nat) (rest : List (String × Nat)) (hq : st.queue = (u, d) :: rest) :
    ∀ e ∈ (crawlStep env mD mP (env.urlparse start).netloc st).queue,
      e ∈ st.queue ∨
        ((env.urlparse e.1).netloc = (env.urlparse start).netloc ∧
         ((env.urlparse e.1).scheme = "http" ∨ (env.urlparse e.1).scheme = "https") ∧
         ¬ e.1 ∈ u :: st.visited ∧
         accepted_path_regex_search (env.urlparse e.1).path = true ∧
         e.2 = d + 1) := by
  intro e he
  simp only [crawlStep, hq] at he
  split at he
  · exact Or.inl he
  · split at he
    · refine Or.inl ?_
      rw [hq]
      exact List.mem_cons_of_mem _ he
    · split at he
      · refine Or.inl ?_
        rw [hq]
        exact List.mem_cons_of_mem _ he
      · rcases crawlLinkPhase_queue env mD mP (env.urlparse start).netloc u d _ with hq2 | ⟨soup, hq2⟩
        · rw [hq2] at he
          refine Or.inl ?_
          rw [hq]
          exact List.mem_cons_of_mem _ he
        · rw [hq2] at he
          rcases List.mem_append.1 he with h3 | h3
          · refine Or.inl ?_
            rw [hq]
            exact List.mem_cons_of_mem _ h3
          · have hprops := mem_linksFrom h3
            exact Or.inr ⟨hprops.1, hprops.2.1, hprops.2.2.1, hprops.2.2.2.1, hprops.2.2.2.2⟩

/-! ## Keys of the details dictionary -/

theorem dictSet_keys_of_mem (l : List (String × DVal)) (k : String) (v : DVal)
    (h : k ∈ l.map Prod.fst) : (dictSet l k v).map Prod.fst = l.map Prod.fst := by
  induction l with
  | nil => cases h
  | cons p rest ih =>
    obtain ⟨k2, v2⟩ := p
    simp only [List.map_cons] at h
    unfold dictSet
    by_cases hk : k2 = k
    · rw [if_pos hk]
      simp only [List.map_cons]
      rw [hk]
    · rw [if_neg hk]
      simp only [List.map_cons]
      rcases List.mem_cons.1 h with h1 | h1
      · exact absurd h1.symm hk
      · rw [ih h1]

theorem dictSet_keys3 (l : List (String × DVal)) (k : String) (v : DVal)
    (h : l.map Prod.fst = ["Full Article", "Date Posted", "Author(s)"])
    (hk : k ∈ (["Full Article", "Date Posted", "Author(s)"] : List String)) :
    (dictSet l k v).map Prod.fst = ["Full Article", "Date Posted", "Author(s)"] := by
  rw [dictSet_keys_of_mem]
  · exact h
  · rw [h]
    exact hk

/-! ## Claim theorems over whole runs -/

/-- Claim C1: in every run of the crawler, every URL is processed
(fetched) at most once — the log of URLs reaching the processing stage
has no duplicates, because a dequeued URL already in the visited set is
discarded before processing. -/
theorem crawl_no_url_fetched_twice (env : Env) (mD mP fuel : Nat) (dom start : String) :
    (crawlRun env mD mP dom fuel (initState start)).fetchedLog.Nodup :=
  (crawlRun_inv
    (fun st => st.fetchedLog.Nodup ∧ ∀ u ∈ st.fetchedLog, u ∈ st.visited)
    (fun st hst => crawlStep_inv_fetched env mD mP dom st hst.1 hst.2)
    fuel (initState start) ⟨List.nodup_nil, fun u hu => absurd hu (List.not_mem_nil u)⟩).1

/-- Claim C2: no two records of the returned output share the same
identifying `"Link"` URL, and the output equals the first-occurrence
dedup (by link) of the concatenation, in processing order, of all
per-page extraction results — so the record kept for a link is the one
from whichever page was processed first. -/
theorem crawl_output_no_duplicate_links (env : Env) (mD mP fuel : Nat) (start : String) :
    ((crawl_website env mD mP fuel start).map Article.link).Nodup ∧
    crawl_website env mD mP fuel start =
      (dedupArticles [] []
        (crawlRun env mD mP (env.urlparse start).netloc fuel
          (initState start)).articleStream).2 := by
  have h := crawlRun_inv
    (fun st => st.scrapedArticleUrls = (dedupArticles [] [] st.articleStream).1 ∧
      st.allArticles = (dedupArticles [] [] st.articleStream).2)
    (fun st hst => crawlStep_inv_articles env mD mP ((env.urlparse start).netloc) st hst.1 hst.2)
    fuel (initState start) ⟨rfl, rfl⟩
  constructor
  · show ((crawlRun env mD mP (env.urlparse start).netloc fuel
      (initState start)).allArticles.map Article.link).Nodup
    rw [h.2]
    exact (dedupArticles_nodup _ [] [] List.nodup_nil
      (fun a ha => absurd ha (List.not_mem_nil a))).1
  · exact h.2

/-- Claim C3: with page budget `max_pages = N` (`N ≥ 1`), the crawler
processes at most `N` pages: the processed-page counter and the length of
the processing log never exceed `N`, however large the frontier grows. -/
theorem crawl_respects_max_pages (env : Env) (mD N fuel : Nat) (dom start : String)
    (hN : 1 ≤ N) :
    (crawlRun env mD N dom fuel (initState start)).pagesVisited ≤ N ∧
      (crawlRun env mD N dom fuel (initState start)).fetchedLog.length ≤ N := by
  have h := crawlRun_inv
    (fun st => st.pagesVisited ≤ N ∧ st.fetchedLog.length = st.pagesVisited)
    (fun st hst => crawlStep_inv_count env mD N dom st hst.1 hst.2)
    fuel (initState start) ⟨Nat.zero_le N, rfl⟩
  exact ⟨h.1, h.2 ▸ h.1⟩

/-- Claim C6: with `max_depth = 0` every output record comes from the
extraction of the seed page itself, and no outbound link is ever
enqueued: at every point of the run the frontier is the initial seed
entry or empty. -/
theorem crawl_depth0_only_seed_records (env : Env) (mP fuel : Nat) (start : String) :
    (∀ a ∈ crawl_website env 0 mP fuel start,
        a ∈ extract_articles_from_page env.world start) ∧
      ((crawlRun env 0 mP (env.urlparse start).netloc fuel (initState start)).queue =
          [(start, 0)] ∨
        (crawlRun env 0 mP (env.urlparse start).netloc fuel (initState start)).queue = []) := by
  have h := crawlRun_inv
    (fun st => (∀ a ∈ st.allArticles, a ∈ extract_articles_from_page env.world start) ∧
      (st.queue = [(start, 0)] ∨ st.queue = []))
    (fun st hst => crawlStep_inv_depth0 env mP ((env.urlparse start).netloc) start st hst.1 hst.2)
    fuel (initState start) ⟨fun a ha => absurd ha (List.not_mem_nil a), Or.inl rfl⟩
  exact ⟨h.1, h.2⟩

/-- Claim C7: at every point of every run, every frontier entry other
than the seed URL has a parsed path matching the configured path filter —
a link whose path does not match the allowlist regex is never added to
the frontier. -/
theorem crawl_only_filtered_paths_enqueued (env : Env) (mD mP fuel : Nat)
    (dom start : String) :
    ∀ e ∈ (crawlRun env mD mP dom fuel (initState start)).queue,
      e.1 = start ∨ accepted_path_regex_search (env.urlparse e.1).path = true := by
  refine crawlRun_inv _ (fun st hst => crawlStep_inv_filter env mD mP dom start st hst)
    fuel (initState start) ?_
  intro e he
  rcases List.mem_singleton.1 he with rfl
  exact Or.inl rfl

/-- Claim C9: traversal is breadth-first — in every run, the sequence of
depths of dequeued frontier entries, in dequeue order, is non-decreasing,
so all depth-`d` entries are dequeued before any depth-`(d+1)` entry. -/
theorem crawl_dequeued_depths_nondecreasing (env : Env) (mD mP fuel : Nat)
    (dom start : String) :
    ((crawlRun env mD mP dom fuel (initState start)).dequeueLog.map Prod.snd).Pairwise
      (· ≤ ·) := by
  have h := crawlRun_inv depthInv (fun st hst => crawlStep_inv_depth env mD mP dom st hst)
    fuel (initState start) ⟨by simp [initState], by simp [initState]⟩
  exact h.1.sublist (List.sublist_append_left _ _)

/-- Claim C10: `get_article_details` is total (the embedding is a Lean
function, mirroring that every failure is caught) and always returns a
dictionary whose keys are exactly `"Full Article"`, `"Date Posted"`,
`"Author(s)"` in insertion order; on a request error, a non-success
status, or a parse failure it returns the untouched default values
(empty string, empty string, empty list). -/
theorem get_article_details_shape (w : String → FetchResult) (u : String) :
    (get_article_details w u).map Prod.fst =
        ["Full Article", "Date Posted", "Author(s)"] ∧
      (w u = FetchResult.err → get_article_details w u = detailsDefault) ∧
      (∀ s odoc, w u = FetchResult.ok s odoc → s ≠ 200 →
        get_article_details w u = detailsDefault) ∧
      (∀ s, w u = FetchResult.ok s none → get_article_details w u = detailsDefault) := by
  refine ⟨?_, ?_, ?_, ?_⟩
  · match hw : w u with
    | FetchResult.err =>
      simp only [get_article_details, hw]
      rfl
    | FetchResult.ok s odoc =>
      simp only [get_article_details, hw]
      by_cases hs : s ≠ 200
      · rw [if_pos hs]
        rfl
      · rw [if_neg hs]
        match odoc with
        | none => rfl
        | some soup =>
          refine dictSet_keys3 _ _ _ ?_ (by decide)
          split
          · refine dictSet_keys3 _ _ _ ?_ (by decide)
            exact dictSet_keys3 _ _ _ rfl (by decide)
          · split
            · refine dictSet_keys3 _ _ _ ?_ (by decide)
              exact dictSet_keys3 _ _ _ rfl (by decide)
            · exact dictSet_keys3 _ _ _ rfl (by decide)
  · intro hw
    simp only [get_article_details, hw]
  · intro s odoc hw hs
    simp only [get_article_details, hw]
    rw [if_pos hs]
  · intro s hw
    simp only [get_article_details, hw]
    by_cases hs : s ≠ 200
    · rw [if_pos hs]
    · rw [if_neg hs]

/-! ## Concrete witnesses and the counterexample -/

/-- Witness for claim C3 at `N = 1` on the all-failing network. -/
theorem crawl_respects_max_pages_witness :
    (crawlRun envErr 3 1 "h" 5 (initState "s")).pagesVisited ≤ 1 ∧
      (crawlRun envErr 3 1 "h" 5 (initState "s")).fetchedLog.length ≤ 1 :=
  crawl_respects_max_pages envErr 3 1 5 "h" "s" (by decide)

/-- Witness for claim C5: a fresh depth-5 entry under `max_depth = 3` is
marked visited and dropped without processing. -/
theorem crawlStep_discard_eq_witness :
    crawlStep envErr 3 500 "h" st5 =
      { st5 with queue := [], visited := "u" :: st5.visited,
                 dequeueLog := st5.dequeueLog ++ [("u", 5)] } :=
  crawlStep_discard_eq envErr 3 500 "h" st5 "u" 5 [] rfl (by decide) (Or.inl (by decide)) rfl

/-- Witness for the amended claim C4, exercising both failure modes: on
a transport-error network and on an all-404 network alike, the seed URL
yields nothing, enqueues nothing, is not re-queued — and is still
counted as a processed page. -/
theorem crawlStep_err_eq_witness :
    (crawlStep envErr 3 500 "h" (initState "s") =
      { initState "s" with queue := [], visited := ["s"], pagesVisited := 1,
                           fetchedLog := ["s"], dequeueLog := [("s", 0)] }) ∧
    (crawlStep env404 3 500 "h" (initState "s") =
      { initState "s" with queue := [], visited := ["s"], pagesVisited := 1,
                           fetchedLog := ["s"], dequeueLog := [("s", 0)] }) :=
  ⟨crawlStep_err_eq envErr 3 500 "h" (initState "s") "s" 0 [] rfl (by decide) (by decide)
      (by decide) rfl (Or.inl rfl),
   crawlStep_err_eq env404 3 500 "h" (initState "s") "s" 0 [] rfl (by decide) (by decide)
      (by decide) rfl (Or.inr ⟨404, some docEmpty, rfl, by decide⟩)⟩

/-- Witness for claim C6: with `max_depth = 0` the single output record
of a concrete run comes from the seed page's own extraction. -/
theorem crawl_depth0_only_seed_records_witness :
    articleW ∈ extract_articles_from_page envW.world "seed" :=
  (crawl_depth0_only_seed_records envW 500 2 "seed").1 articleW (by decide)

/-- Witness for claim C7: the one frontier entry of a concrete run after
one iteration has a path accepted by the filter. -/
theorem crawl_only_filtered_paths_enqueued_witness :
    ("https://h/blog/x" = "seed") ∨
      accepted_path_regex_search ((envW.urlparse "https://h/blog/x").path) = true :=
  crawl_only_filtered_paths_enqueued envW 3 500 1 "h" "seed" ("https://h/blog/x", 1) (by decide)

/-- Witness for claim C8: the link discovered on the concrete seed page
is same-host, https, unvisited, filter-accepted, at depth 1. -/
theorem crawlStep_new_entries_witness :
    (("https://h/blog/x", 1) : String × Nat) ∈ (initState "seed").queue ∨
      ((envW.urlparse "https://h/blog/x").netloc = (envW.urlparse "seed").netloc ∧
       ((envW.urlparse "https://h/blog/x").scheme = "http" ∨
        (envW.urlparse "https://h/blog/x").scheme = "https") ∧
       ¬ "https://h/blog/x" ∈ "seed" :: (initState "seed").visited ∧
       accepted_path_regex_search (envW.urlparse "https://h/blog/x").path = true ∧
       (1 : Nat) = 0 + 1) :=
  crawlStep_new_entries envW 3 500 "seed" (initState "seed") "seed" 0 [] rfl
    ("https://h/blog/x", 1) (by decide)

/-- Witness for claim C10 on three concrete networks: a request error, a
404 response, and an unparseable 200 response all yield the default
three-key dictionary. -/
theorem get_article_details_shape_witness :
    (get_article_details (fun _ => FetchResult.err) "x").map Prod.fst =
        ["Full Article", "Date Posted", "Author(s)"] ∧
      get_article_details (fun _ => FetchResult.err) "x" = detailsDefault ∧
      get_article_details (fun _ => FetchResult.ok 404 (some docEmpty)) "x" = detailsDefault ∧
      get_article_details (fun _ => FetchResult.ok 200 none) "x" = detailsDefault :=
  ⟨(get_article_details_shape (fun _ => FetchResult.err) "x").1,
   (get_article_details_shape (fun _ => FetchResult.err) "x").2.1 rfl,
   (get_article_details_shape (fun _ => FetchResult.ok 404 (some docEmpty)) "x").2.2.1
     404 (some docEmpty) rfl (by decide),
   (get_article_details_shape (fun _ => FetchResult.ok 200 none) "x").2.2.2 200 rfl⟩

/-- Counterexample to claim C4 as stated: on a network where every fetch
raises, the single dequeued URL "s" fails, contributes no records and no
frontier entries — yet the finished run's processed-page counter is 1,
not 0: the failed URL does count toward the `max_pages` budget, because
`pages_visited += 1` runs unconditionally after the extraction call
returns its empty list. -/
theorem crawl_failed_fetch_counted_counterexample :
    envErr.world "s" = FetchResult.err ∧
      (crawlRun envErr 3 500 "h" 2 (initState "s")).allArticles = [] ∧
      (crawlRun envErr 3 500 "h" 2 (initState "s")).queue = [] ∧
      (crawlRun envErr 3 500 "h" 2 (initState "s")).fetchedLog = ["s"] ∧
      (crawlRun envErr 3 500 "h" 2 (initState "s")).pagesVisited = 1 := by
  decide
